import Mathlib

/-!
# Verification of the sigslot signal/slot library (src/sigslot.h)

A shallow embedding of the signal/slot machinery of `src/sigslot.h`:

* `signal0` (and its arity-duplicated siblings `signal1` .. `signal8`, which
  are verbatim copies modulo argument forwarding) holds
  `m_connected_slots : std::list<_connection_base*>` and offers `connect`,
  `emit`, `disconnect` and a destructor, the last two both delegating to the
  private `signal_destroy(bool destroy, has_slots* pslot)` loop.
* `has_slots` holds `m_senders : std::set<_signal_base*>` with
  `signal_connect` / `signal_disconnect` and a destructor that calls
  `disconnect()` on every recorded sender.

Heap objects are modelled by numeric identities: a connection node
(`_connection0*`) by its `cid`, a signal object by a `Nat` key into
`SigState.signals`, a receiver (`has_slots`) object by a `Nat` key into
`SigState.receivers`.  Argument tuples are modelled as `List Int` and member
function pointers as `Nat` callback identifiers.

The dispatch loop of `signal0::emit` is modelled separately over a single
connection list (`emitLoop`), because a re-entrant `disconnect` call made by
an invoked slot mutates only the emitting signal's own list
(`signal_destroy(false, _)` touches no receiver state).  Slot behaviour is an
environment `env : Nat → Action` mapping a callback identifier to the
side effect its body performs on the emitting signal.
-/

namespace Sigslot

/-- One connection node of a signal's `m_connected_slots` list
(a `_connection0<desttype, mt_policy>` heap object).  `cid` is the node's
identity (its heap address), `dest` the target receiver (`m_pobject`), `cb`
the bound member function (`m_pmemfun`).  All fields are fixed at
construction; `getdest()` returns `dest`. -/
structure Conn where
  cid : Nat
  dest : Nat
  cb : Nat
deriving DecidableEq, Repr

/-- The identities of the nodes of a connection list. -/
def ids (l : List Conn) : List Nat := l.map (fun c => c.cid)

/-- The connection list left behind by the erase half of
`signal0::signal_destroy(destroy, pslot)`: walking the list, a node is erased
when `pslot` is null (erase everything) or when `(*it)->getdest() == pslot`.
The `destroy` flag only controls receiver notification and is handled in the
full registry model below. -/
def signal_destroy_walk (pslot : Option Nat) : List Conn → List Conn
  | [] => []
  | c :: rest =>
    match pslot with
    | none => signal_destroy_walk none rest
    | some r =>
      if c.dest = r then signal_destroy_walk (some r) rest
      else c :: signal_destroy_walk (some r) rest

/-- The side effect an invoked slot body performs on the emitting signal:
nothing, a re-entrant `disconnect(r)`, a re-entrant `disconnect()` of
everything, a re-entrant `connect` allocating the node `c`, or throwing an
exception out of the callback. -/
inductive Action where
  | inert : Action
  | disconnectR : Nat → Action
  | disconnectAll : Action
  | connectNew : Conn → Action
  | fail : Action
deriving DecidableEq, Repr

/-- Effect of an invoked slot body on the emitting signal's connection list.
`disconnectR` and `disconnectAll` run `signal_destroy(false, _)`;
`connectNew c` runs `connect`, which appends the freshly allocated node at
the back of the list; a throwing body mutates nothing. -/
def applyAction (a : Action) (l : List Conn) : List Conn :=
  match a with
  | .inert => l
  | .fail => l
  | .disconnectR r => signal_destroy_walk (some r) l
  | .disconnectAll => signal_destroy_walk none l
  | .connectNew c => l ++ [c]

/-- Dereference an iterator holding node identity `cid`: the node of the
current list with that identity, when still present.  Dereferencing the
iterator of an erased (freed) node is undefined behaviour in the source; the
dispatch loop below flags that situation. -/
def findConn (l : List Conn) (cid : Nat) : Option Conn :=
  l.find? (fun c => c.cid == cid)

/-- `itNext = it; ++itNext` on a `std::list`: the identity of the node
following node `cid`, or `none` for the end sentinel. -/
def succIn : List Conn → Nat → Option Nat
  | [], _ => none
  | c :: rest, cid =>
    if c.cid = cid then (rest.head?).map (fun x => x.cid) else succIn rest cid

/-- The iterator position at the head of a list: the first node's identity,
or the end sentinel for an empty list. -/
def headPos (l : List Conn) : Option Nat :=
  (l.head?).map (fun x => x.cid)

/-- One observable callback invocation `(*it)->emit(args...)`: the node that
fired, its target receiver, its bound member function, and the argument tuple
it received. -/
structure EmitEv where
  cid : Nat
  dest : Nat
  cb : Nat
  args : List Int
deriving DecidableEq, Repr

/-- The invocation event produced by node `c` under arguments `args`. -/
def inv (args : List Int) (c : Conn) : EmitEv :=
  ⟨c.cid, c.dest, c.cb, args⟩

/-- How a dispatch run ended: normal sentinel exit, an exception propagating
out of a callback, a resume at an erased node (undefined behaviour in the
source), or fuel exhaustion of the model (never reached with enough fuel). -/
inductive Outcome where
  | ok : Outcome
  | failed : Outcome
  | invalidIter : Outcome
  | fuelOut : Outcome
deriving DecidableEq, Repr

/-- Result of a dispatch run: the connection list after it, the invocation
trace, and how it ended. -/
structure LoopRes where
  conns : List Conn
  trace : List EmitEv
  outcome : Outcome
deriving DecidableEq, Repr

/-- The dispatch loop of `signal0::emit`:

    it = begin; itEnd = end;
    while (it != itEnd) { itNext = it; ++itNext; (*it)->emit(args); it = itNext; }

The position is the identity of the node `it` points at (`none` is the end
sentinel, which for a `std::list` is stable under insertion and erasure of
other nodes).  The lookahead `itNext` is captured before the invocation;
after the invocation the slot body's side effect has been applied to the
list and the loop resumes at the captured identity.  Resuming at a node that
the side effect erased dereferences freed memory in the source and yields
`Outcome.invalidIter` here.  A throwing callback propagates immediately with
`Outcome.failed`, the list unchanged and later nodes not invoked. -/
def emitLoop (env : Nat → Action) (args : List Int) :
    Nat → List Conn → Option Nat → LoopRes
  | _, l, none => ⟨l, [], .ok⟩
  | 0, l, some _ => ⟨l, [], .fuelOut⟩
  | fuel + 1, l, some cid =>
    match findConn l cid with
    | none => ⟨l, [], .invalidIter⟩
    | some c =>
      if env c.cb = Action.fail then ⟨l, [inv args c], .failed⟩
      else
        let res := emitLoop env args fuel (applyAction (env c.cb) l) (succIn l cid)
        ⟨res.conns, inv args c :: res.trace, res.outcome⟩

/-- `signal0::emit` on a connection list: run the dispatch loop from the
head of the list. -/
def emit (env : Nat → Action) (args : List Int) (fuel : Nat) (l : List Conn) : LoopRes :=
  emitLoop env args fuel l (headPos l)

/-- Lock events of the emitting signal's mutex, as driven by the
`lock_block` guard. -/
inductive LockEv where
  | acquire : LockEv
  | release : LockEv
  | call : EmitEv → LockEv
deriving DecidableEq, Repr

/-- `signal0::emit` wrapped in its `lock_block<mt_policy>` guard: the guard's
constructor locks on entry and its destructor unlocks on every exit path —
normal return and stack unwinding alike — so the release event closes the
event list for both outcomes. -/
def emitEvents (env : Nat → Action) (args : List Int) (fuel : Nat) (l : List Conn) :
    List LockEv :=
  LockEv.acquire :: ((emit env args fuel l).trace.map LockEv.call) ++ [LockEv.release]

/-! ## The registry state machine

`SigState` is the heap of live signal and receiver objects: each live
`signal0` carries its `m_connected_slots` list and each live `has_slots` its
`m_senders` set.  `nextCid` supplies fresh node identities for `new
_connection0(...)`. -/

/-- Lookup by object identity in an association list. -/
def lookupA {α : Type} : List (Nat × α) → Nat → Option α
  | [], _ => none
  | (k, v) :: rest, k2 => if k = k2 then some v else lookupA rest k2

/-- Replace the value stored under an identity (no change when absent). -/
def updateA {α : Type} : List (Nat × α) → Nat → α → List (Nat × α)
  | [], _, _ => []
  | (k, v) :: rest, k2, v2 =>
    if k = k2 then (k, v2) :: rest else (k, v) :: updateA rest k2 v2

/-- Drop an identity from the heap (object destroyed). -/
def removeA {α : Type} : List (Nat × α) → Nat → List (Nat × α)
  | [], _ => []
  | (k, v) :: rest, k2 =>
    if k = k2 then removeA rest k2 else (k, v) :: removeA rest k2

/-- `std::set<_signal_base*>::insert` on the sender set, the set kept as a
strictly ascending list of identities (the pointer order of the source). -/
def setInsert (x : Nat) : List Nat → List Nat
  | [] => [x]
  | y :: ys =>
    if x < y then x :: y :: ys
    else if x = y then y :: ys
    else y :: setInsert x ys

/-- The heap of live sigslot objects: fresh-node counter, the live signals
with their `m_connected_slots`, and the live receivers with their
`m_senders`. -/
structure SigState where
  nextCid : Nat
  signals : List (Nat × List Conn)
  receivers : List (Nat × List Nat)
deriving DecidableEq, Repr

/-- The `m_connected_slots` list of signal `sid` (empty when not live). -/
def connsOf (st : SigState) (sid : Nat) : List Conn :=
  (lookupA st.signals sid).getD []

/-- The `m_senders` set of receiver `rid` (empty when not live). -/
def sendersOf (st : SigState) (rid : Nat) : List Nat :=
  (lookupA st.receivers rid).getD []

/-- Whether signal object `sid` is alive (not yet destroyed). -/
def signalLive (st : SigState) (sid : Nat) : Bool :=
  (lookupA st.signals sid).isSome

/-- Whether receiver object `rid` is alive (not yet destroyed). -/
def receiverLive (st : SigState) (rid : Nat) : Bool :=
  (lookupA st.receivers rid).isSome

/-- Store a new `m_connected_slots` list for signal `sid`. -/
def setConns (st : SigState) (sid : Nat) (l : List Conn) : SigState :=
  { st with signals := updateA st.signals sid l }

/-- `has_slots::signal_connect(sender)`: `m_senders.insert(sender)`. -/
def signal_connect (st : SigState) (rid sid : Nat) : SigState :=
  match lookupA st.receivers rid with
  | none => st
  | some sd => { st with receivers := updateA st.receivers rid (setInsert sid sd) }

/-- `has_slots::signal_disconnect(sender)`: `m_senders.erase(sender)`. -/
def signal_disconnect (st : SigState) (rid sid : Nat) : SigState :=
  match lookupA st.receivers rid with
  | none => st
  | some sd => { st with receivers := updateA st.receivers rid (sd.erase sid) }

/-- The loop of `signal0::signal_destroy(destroy, pslot)`: walk the
connection list with captured lookahead; per node, when `destroy` is set the
target receiver is told `signal_disconnect(this)`, and the node is deleted
and erased when `pslot` is null or the node's `getdest()` equals `pslot`.
Returns the state after all receiver notifications together with the
surviving list. -/
def signal_destroy_loop (sid : Nat) (destroy : Bool) (pslot : Option Nat) :
    List Conn → SigState → SigState × List Conn
  | [], st => (st, [])
  | c :: rest, st =>
    let st1 := if destroy then signal_disconnect st c.dest sid else st
    let res := signal_destroy_loop sid destroy pslot rest st1
    match pslot with
    | none => res
    | some r => if c.dest = r then res else (res.1, c :: res.2)

/-- `signal0::signal_destroy(destroy, pslot)` on the registry. -/
def signal_destroy (st : SigState) (sid : Nat) (destroy : Bool) (pslot : Option Nat) :
    SigState :=
  let res := signal_destroy_loop sid destroy pslot (connsOf st sid) st
  setConns res.1 sid res.2

/-- `signal0::disconnect(pslot)`: `signal_destroy(false, pslot)` —
note the `false`: the erase half runs, the receiver-notification half does
not. -/
def disconnect (st : SigState) (sid : Nat) (pslot : Option Nat) : SigState :=
  signal_destroy st sid false pslot

/-- `~signal0()`: `signal_destroy(true)` and the signal object goes away. -/
def destroySignal (st : SigState) (sid : Nat) : SigState :=
  let st1 := signal_destroy st sid true none
  { st1 with signals := removeA st1.signals sid }

/-- `signal0::connect(pclass, pmemfun)`: allocate a fresh connection node,
`m_connected_slots.push_back(conn)`, then `pclass->signal_connect(this)`. -/
def connect (st : SigState) (sid rid cb : Nat) : SigState :=
  match lookupA st.signals sid with
  | none => st
  | some conns =>
    let c : Conn := ⟨st.nextCid, rid, cb⟩
    let st1 : SigState :=
      { st with nextCid := st.nextCid + 1,
                signals := updateA st.signals sid (conns ++ [c]) }
    signal_connect st1 rid sid

/-- `~has_slots()`, which runs `has_slots::disconnect()`: for every sender in
`m_senders`, call `(*it)->disconnect(this)`; then `m_senders.clear()` and the
receiver object goes away.  Calling through a sender pointer whose signal was
already destroyed is undefined behaviour in the source; in the model such a
call is a no-op. -/
def destroyReceiver (st : SigState) (rid : Nat) : SigState :=
  match lookupA st.receivers rid with
  | none => st
  | some senders =>
    let st1 := senders.foldl (fun acc sid => disconnect acc sid (some rid)) st
    { st1 with receivers := removeA st1.receivers rid }

/-- One application-level operation on the registry. -/
inductive Op where
  | opConnect : Nat → Nat → Nat → Op
  | opDisconnect : Nat → Option Nat → Op
  | opEmit : Nat → Op
  | opDestroySignal : Nat → Op
  | opDestroyReceiver : Nat → Op
deriving DecidableEq, Repr

/-- Apply one operation to the registry.  `opEmit` with mutation-free slot
bodies leaves the registry unchanged; the dispatch trace itself is the
subject of `emit` above. -/
def applyOp (st : SigState) : Op → SigState
  | .opConnect sid rid cb => connect st sid rid cb
  | .opDisconnect sid p => disconnect st sid p
  | .opEmit _ => st
  | .opDestroySignal sid => destroySignal st sid
  | .opDestroyReceiver rid => destroyReceiver st rid

/-- Run a finite sequence of operations. -/
def run (st : SigState) (ops : List Op) : SigState :=
  ops.foldl applyOp st

/-- The core invariant claimed by the spec: no live signal's connection list
targets a destroyed receiver, and no live receiver's sender set records a
destroyed signal. -/
def invariantOk (st : SigState) : Bool :=
  st.signals.all (fun p => p.2.all (fun c => receiverLive st c.dest)) &&
  st.receivers.all (fun p => p.2.all (fun sid => signalLive st sid))

/-- A tiny initial heap: one live signal (identity 0) and one live receiver
(identity 0), nothing connected. -/
def st0 : SigState := ⟨0, [(0, [])], [(0, [])]⟩

/-- A heap with one signal and three receivers, used as a concrete fixture. -/
def st3 : SigState := ⟨0, [(0, [])], [(0, []), (1, []), (2, [])]⟩

/-- An environment in which every slot body is side-effect free. -/
def envInert : Nat → Action := fun _ => Action.inert

/-- An environment in which slot body 0 re-entrantly disconnects receiver 9
from the emitting signal, all other bodies side-effect free. -/
def envDisc9 : Nat → Action :=
  fun cb => if cb = 0 then Action.disconnectR 9 else Action.inert

/-- An environment in which slot body 0 re-entrantly disconnects receiver 1,
all other bodies side-effect free. -/
def envDisc1 : Nat → Action :=
  fun cb => if cb = 0 then Action.disconnectR 1 else Action.inert

/-- An environment in which slot body 5 re-entrantly calls
`disconnect(this)` for its own receiver (receiver 1), all other bodies
side-effect free. -/
def envSelf1 : Nat → Action :=
  fun cb => if cb = 5 then Action.disconnectR 1 else Action.inert

/-- An environment in which slot body 0 re-entrantly calls
`disconnect(this)` for its own receiver (receiver 4), all other bodies
side-effect free. -/
def envSelf4 : Nat → Action :=
  fun cb => if cb = 0 then Action.disconnectR 4 else Action.inert

/-- An environment in which slot body 5 throws, all other bodies
side-effect free. -/
def envThrow5 : Nat → Action :=
  fun cb => if cb = 5 then Action.fail else Action.inert

/-- An environment in which slot body 5 re-entrantly connects the fresh node
`⟨7, 7, 9⟩` to the emitting signal, all other bodies side-effect free. -/
def envConn5 : Nat → Action :=
  fun cb => if cb = 5 then Action.connectNew ⟨7, 7, 9⟩ else Action.inert

/-! ## Basic lemmas about the dispatch loop -/

theorem ids_append (a b : List Conn) : ids (a ++ b) = ids a ++ ids b := by
  simp [ids]

theorem nodup_split_not_mem (A : List Conn) (c : Conn) (B : List Conn)
    (h : (ids (A ++ c :: B)).Nodup) : c.cid ∉ ids A := by
  rw [ids_append] at h
  rcases (List.nodup_append.mp h) with ⟨-, -, hdisj⟩
  intro hmem
  exact hdisj hmem (by simp [ids])

theorem findConn_append_cons (A : List Conn) (c : Conn) (B : List Conn)
    (h : c.cid ∉ ids A) : findConn (A ++ c :: B) c.cid = some c := by
  induction A with
  | nil => simp [findConn, List.find?]
  | cons a A ih =>
    have ha : ¬ (a.cid == c.cid) = true := by
      simp only [beq_iff_eq]
      intro he
      exact h (by simp [ids, he])
    have h2 : c.cid ∉ ids A := fun hm => h (by simp [ids] at hm ⊢; exact Or.inr hm)
    simpa [findConn, List.find?, ha] using ih h2

theorem succIn_append_cons (A : List Conn) (c : Conn) (B : List Conn)
    (h : c.cid ∉ ids A) : succIn (A ++ c :: B) c.cid = headPos B := by
  induction A with
  | nil => simp [succIn, headPos]
  | cons a A ih =>
    have ha : a.cid ≠ c.cid := by
      intro he
      exact h (by simp [ids, he])
    have h2 : c.cid ∉ ids A := fun hm => h (by simp [ids] at hm ⊢; exact Or.inr hm)
    simpa [succIn, ha] using ih h2

theorem emitLoop_sentinel (env : Nat → Action) (args : List Int) (fuel : Nat)
    (l : List Conn) : emitLoop env args fuel l none = ⟨l, [], .ok⟩ := by
  cases fuel <;> rfl

theorem emitLoop_succ (env : Nat → Action) (args : List Int) (fuel : Nat)
    (l : List Conn) (cid : Nat) :
    emitLoop env args (fuel + 1) l (some cid) =
      match findConn l cid with
      | none => ⟨l, [], .invalidIter⟩
      | some c =>
        if env c.cb = Action.fail then ⟨l, [inv args c], .failed⟩
        else
          ⟨(emitLoop env args fuel (applyAction (env c.cb) l) (succIn l cid)).conns,
           inv args c :: (emitLoop env args fuel (applyAction (env c.cb) l) (succIn l cid)).trace,
           (emitLoop env args fuel (applyAction (env c.cb) l) (succIn l cid)).outcome⟩ := rfl

theorem emitLoop_step_nofail (env : Nat → Action) (args : List Int) (fuel : Nat)
    (A : List Conn) (c : Conn) (B : List Conn)
    (h : c.cid ∉ ids A) (hnf : env c.cb ≠ Action.fail) :
    emitLoop env args (fuel + 1) (A ++ c :: B) (some c.cid) =
      ⟨(emitLoop env args fuel (applyAction (env c.cb) (A ++ c :: B)) (headPos B)).conns,
       inv args c ::
         (emitLoop env args fuel (applyAction (env c.cb) (A ++ c :: B)) (headPos B)).trace,
       (emitLoop env args fuel (applyAction (env c.cb) (A ++ c :: B)) (headPos B)).outcome⟩ := by
  rw [emitLoop_succ, findConn_append_cons A c B h, succIn_append_cons A c B h]
  simp [hnf]

theorem emitLoop_step_fail (env : Nat → Action) (args : List Int) (fuel : Nat)
    (A : List Conn) (c : Conn) (B : List Conn)
    (h : c.cid ∉ ids A) (hf : env c.cb = Action.fail) :
    emitLoop env args (fuel + 1) (A ++ c :: B) (some c.cid) =
      ⟨A ++ c :: B, [inv args c], .failed⟩ := by
  rw [emitLoop_succ, findConn_append_cons A c B h]
  simp [hf]

/-- Walking a run of side-effect-free nodes: the loop invokes them in list
order and arrives at the continuation position, the list unchanged. -/
theorem emitLoop_inert_seg (env : Nat → Action) (args : List Int) :
    ∀ (seg A tail : List Conn) (fuel : Nat),
      (ids (A ++ seg ++ tail)).Nodup →
      (∀ c ∈ seg, env c.cb = Action.inert) →
      emitLoop env args (seg.length + fuel) (A ++ seg ++ tail) (headPos (seg ++ tail)) =
        ⟨(emitLoop env args fuel (A ++ seg ++ tail) (headPos tail)).conns,
         seg.map (inv args) ++
           (emitLoop env args fuel (A ++ seg ++ tail) (headPos tail)).trace,
         (emitLoop env args fuel (A ++ seg ++ tail) (headPos tail)).outcome⟩ := by
  intro seg
  induction seg with
  | nil => intro A tail fuel h1 h2; simp
  | cons x seg2 ih =>
    intro A tail fuel h1 h2
    have hassoc : A ++ (x :: seg2) ++ tail = A ++ x :: (seg2 ++ tail) := by simp
    have hnod : (ids (A ++ x :: (seg2 ++ tail))).Nodup := by rwa [hassoc] at h1
    have hx : x.cid ∉ ids A := nodup_split_not_mem A x (seg2 ++ tail) hnod
    have hxin : env x.cb = Action.inert := h2 x (by simp)
    have hlen : (x :: seg2).length + fuel = (seg2.length + fuel) + 1 := by
      simp [Nat.succ_add]
    have hpos : headPos ((x :: seg2) ++ tail) = some x.cid := by simp [headPos]
    rw [hassoc, hlen, hpos,
      emitLoop_step_nofail env args (seg2.length + fuel) A x (seg2 ++ tail) hx
        (by simp [hxin])]
    have happly : applyAction (env x.cb) (A ++ x :: (seg2 ++ tail)) =
        A ++ x :: (seg2 ++ tail) := by simp [hxin, applyAction]
    rw [happly]
    have hassoc2 : A ++ x :: (seg2 ++ tail) = (A ++ [x]) ++ seg2 ++ tail := by simp
    have hnod2 : (ids ((A ++ [x]) ++ seg2 ++ tail)).Nodup := by rwa [hassoc2] at hnod
    have h2b : ∀ c ∈ seg2, env c.cb = Action.inert := fun c hc => h2 c (by simp [hc])
    have := ih (A ++ [x]) tail fuel hnod2 h2b
    rw [hassoc2]
    have hback : headPos (seg2 ++ tail) = headPos (seg2 ++ tail) := rfl
    rw [this]
    simp

/-- A mutation-free dispatch: every node present at the start is invoked
exactly once, in list order, with the exact argument tuple, and the run ends
normally with the list unchanged. -/
theorem emit_inert_run (env : Nat → Action) (args : List Int) (l : List Conn) (k : Nat)
    (hn : (ids l).Nodup) (hi : ∀ c ∈ l, env c.cb = Action.inert) :
    emit env args (l.length + k) l = ⟨l, l.map (inv args), .ok⟩ := by
  have h1 : (ids (([] : List Conn) ++ l ++ [])).Nodup := by simpa using hn
  have := emitLoop_inert_seg env args l [] [] k h1 hi
  simp only [List.nil_append, List.append_nil] at this
  rw [emit, this]
  have hnone : headPos ([] : List Conn) = none := rfl
  rw [hnone, emitLoop_sentinel]
  simp

/-! ## Lemmas about the erase walk of `signal_destroy` -/

/-- The erase walk of `signal_destroy(_, pslot)` with a specific receiver is
exactly a filter: the surviving nodes are those targeting someone else, in
their original relative order. -/
theorem signal_destroy_walk_eq_filter (r : Nat) (l : List Conn) :
    signal_destroy_walk (some r) l = l.filter (fun c => c.dest != r) := by
  induction l with
  | nil => rfl
  | cons c rest ih =>
    by_cases h : c.dest = r
    · simp [signal_destroy_walk, h, ih]
    · simp [signal_destroy_walk, h, ih]

theorem signal_destroy_walk_none (l : List Conn) :
    signal_destroy_walk none l = [] := by
  induction l with
  | nil => rfl
  | cons c rest ih => simp [signal_destroy_walk, ih]

theorem signal_destroy_walk_append (r : Nat) (u v : List Conn) :
    signal_destroy_walk (some r) (u ++ v) =
      signal_destroy_walk (some r) u ++ signal_destroy_walk (some r) v := by
  induction u with
  | nil => rfl
  | cons c rest ih =>
    by_cases h : c.dest = r
    · simp [signal_destroy_walk, h, ih]
    · simp [signal_destroy_walk, h, ih]

theorem signal_destroy_walk_sublist (r : Nat) (l : List Conn) :
    (signal_destroy_walk (some r) l).Sublist l := by
  rw [signal_destroy_walk_eq_filter]
  exact List.filter_sublist l

theorem signal_destroy_walk_keep (r : Nat) (y : Conn) (rest : List Conn)
    (h : y.dest ≠ r) :
    signal_destroy_walk (some r) (y :: rest) = y :: signal_destroy_walk (some r) rest := by
  simp [signal_destroy_walk, h]

theorem signal_destroy_walk_id (r : Nat) (l : List Conn)
    (h : ∀ c ∈ l, c.dest ≠ r) : signal_destroy_walk (some r) l = l := by
  induction l with
  | nil => rfl
  | cons c rest ih =>
    rw [signal_destroy_walk_keep r c rest (h c (by simp))]
    rw [ih (fun c hc => h c (by simp [hc]))]

/-! ## Dispatch under re-entrant mutation -/

/-- Dispatch in which one slot body, at an arbitrary position, re-entrantly
calls `disconnect(r)` on the emitting signal, every other body side-effect
free.  Provided the node the captured lookahead points at — the one
immediately following the mutating node — does not target `r`, the walk
never touches an erased node: it finishes normally, the nodes before and
including the mutator are invoked in order, and of the later nodes exactly
the survivors of the erase are invoked, in order. -/
theorem emit_disconnect_mid (env : Nat → Action) (args : List Int)
    (pre : List Conn) (cx : Conn) (rest : List Conn) (r : Nat) (k : Nat)
    (hn : (ids (pre ++ cx :: rest)).Nodup)
    (hpre : ∀ c ∈ pre, env c.cb = Action.inert)
    (hrest : ∀ c ∈ rest, env c.cb = Action.inert)
    (hcx : env cx.cb = Action.disconnectR r)
    (hsurv : ∀ y ∈ rest.head?, y.dest ≠ r) :
    emit env args ((pre ++ cx :: rest).length + k) (pre ++ cx :: rest) =
      ⟨signal_destroy_walk (some r) (pre ++ cx :: rest),
       pre.map (inv args) ++
         inv args cx :: (signal_destroy_walk (some r) rest).map (inv args),
       Outcome.ok⟩ := by
  have hfuel : (pre ++ cx :: rest).length + k = pre.length + (1 + rest.length + k) := by
    simp [List.length_append]
    omega
  have h1 : (ids (([] : List Conn) ++ pre ++ (cx :: rest))).Nodup := by simpa using hn
  have hseg := emitLoop_inert_seg env args pre [] (cx :: rest) (1 + rest.length + k) h1 hpre
  simp only [List.nil_append] at hseg
  rw [emit, hfuel, hseg]
  have hposcx : headPos (cx :: rest) = some cx.cid := by simp [headPos]
  have hcxnm : cx.cid ∉ ids pre := nodup_split_not_mem pre cx rest hn
  have hstep1 : (1 : Nat) + rest.length + k = (rest.length + k) + 1 := by omega
  rw [hposcx, hstep1,
    emitLoop_step_nofail env args (rest.length + k) pre cx rest hcxnm (by simp [hcx])]
  have happly : applyAction (env cx.cb) (pre ++ cx :: rest) =
      signal_destroy_walk (some r) (pre ++ cx :: rest) := by simp [hcx, applyAction]
  rw [happly]
  cases rest with
  | nil =>
    have : headPos ([] : List Conn) = none := rfl
    rw [this, emitLoop_sentinel]
    simp [signal_destroy_walk]
  | cons y rest2 =>
    have hy : y.dest ≠ r := hsurv y (by simp)
    have hsplit : signal_destroy_walk (some r) (pre ++ cx :: y :: rest2) =
        (signal_destroy_walk (some r) (pre ++ [cx])) ++
          (y :: signal_destroy_walk (some r) rest2) := by
      have : pre ++ cx :: y :: rest2 = (pre ++ [cx]) ++ (y :: rest2) := by simp
      rw [this, signal_destroy_walk_append, signal_destroy_walk_keep r y rest2 hy]
    have hsub : (signal_destroy_walk (some r) (pre ++ cx :: y :: rest2)).Sublist
        (pre ++ cx :: y :: rest2) := signal_destroy_walk_sublist r _
    have hnod2 : (ids (signal_destroy_walk (some r) (pre ++ cx :: y :: rest2))).Nodup := by
      have hn4 := hn
      simp only [ids] at hn4 ⊢
      exact List.Nodup.sublist (hsub.map (fun c => c.cid)) hn4
    have hlen2 : (signal_destroy_walk (some r) rest2).length ≤ rest2.length :=
      (signal_destroy_walk_sublist r rest2).length_le
    have hfuel2 : (y :: rest2).length + k =
        (y :: signal_destroy_walk (some r) rest2).length +
          (rest2.length - (signal_destroy_walk (some r) rest2).length + k) := by
      simp
      omega
    have hnod3 : (ids ((signal_destroy_walk (some r) (pre ++ [cx])) ++
        (y :: signal_destroy_walk (some r) rest2) ++ [])).Nodup := by
      simpa using (hsplit ▸ hnod2)
    have hinert2 : ∀ c ∈ y :: signal_destroy_walk (some r) rest2,
        env c.cb = Action.inert := by
      intro c hc
      rcases hc with _ | hc2
      · exact hrest y (by simp)
      · rename_i hc2
        exact hrest c (by
          have : c ∈ rest2 := (signal_destroy_walk_sublist r rest2).mem hc2
          simp [this])
    have hseg2 := emitLoop_inert_seg env args (y :: signal_destroy_walk (some r) rest2)
      (signal_destroy_walk (some r) (pre ++ [cx])) []
      (rest2.length - (signal_destroy_walk (some r) rest2).length + k) hnod3 hinert2
    simp only [List.append_nil] at hseg2
    have hposy : headPos (y :: rest2) = some y.cid := by simp [headPos]
    have hposy2 : headPos (y :: signal_destroy_walk (some r) rest2) =
        some y.cid := by simp [headPos]
    rw [hposy2] at hseg2
    rw [hposy, hfuel2, hsplit]
    rw [hseg2]
    have : headPos ([] : List Conn) = none := rfl
    rw [this, emitLoop_sentinel]
    simp [signal_destroy_walk_keep r y rest2 hy]

/-- Dispatch in which one slot body at a non-final position re-entrantly
calls `connect` on the emitting signal, every other body (the freshly
connected one included) side-effect free.  The fresh node is appended in
front of the stable end sentinel, so the walk reaches it and invokes it at
the end of the same dispatch. -/
theorem emit_connect_mid (env : Nat → Action) (args : List Int)
    (pre : List Conn) (cx y : Conn) (rest2 : List Conn) (cnew : Conn) (k : Nat)
    (hn : (ids ((pre ++ cx :: y :: rest2) ++ [cnew])).Nodup)
    (hpre : ∀ c ∈ pre, env c.cb = Action.inert)
    (hrest : ∀ c ∈ y :: rest2, env c.cb = Action.inert)
    (hnew : env cnew.cb = Action.inert)
    (hcx : env cx.cb = Action.connectNew cnew) :
    emit env args ((pre ++ cx :: y :: rest2).length + 1 + k) (pre ++ cx :: y :: rest2) =
      ⟨(pre ++ cx :: y :: rest2) ++ [cnew],
       pre.map (inv args) ++
         inv args cx :: ((y :: rest2).map (inv args) ++ [inv args cnew]),
       Outcome.ok⟩ := by
  have hnl : (ids (pre ++ cx :: y :: rest2)).Nodup := by
    have hn4 := hn
    simp only [ids] at hn4 ⊢
    exact List.Nodup.sublist
      ((List.sublist_append_left (pre ++ cx :: y :: rest2) [cnew]).map
        (fun c => c.cid)) hn4
  have hfuel : (pre ++ cx :: y :: rest2).length + 1 + k =
      pre.length + (1 + (y :: rest2).length + 1 + k) := by
    simp [List.length_append]
    omega
  have h1 : (ids (([] : List Conn) ++ pre ++ (cx :: y :: rest2))).Nodup := by simpa using hnl
  have hseg := emitLoop_inert_seg env args pre [] (cx :: y :: rest2)
    (1 + (y :: rest2).length + 1 + k) h1 hpre
  simp only [List.nil_append] at hseg
  rw [emit, hfuel, hseg]
  have hposcx : headPos (cx :: y :: rest2) = some cx.cid := by simp [headPos]
  have hcxnm : cx.cid ∉ ids pre := nodup_split_not_mem pre cx (y :: rest2) hnl
  have hstep1 : (1 : Nat) + (y :: rest2).length + 1 + k =
      ((y :: rest2).length + 1 + k) + 1 := by omega
  rw [hposcx, hstep1,
    emitLoop_step_nofail env args ((y :: rest2).length + 1 + k) pre cx (y :: rest2) hcxnm
      (by simp [hcx])]
  have happly : applyAction (env cx.cb) (pre ++ cx :: y :: rest2) =
      (pre ++ cx :: y :: rest2) ++ [cnew] := by simp [hcx, applyAction]
  rw [happly]
  have hassoc : (pre ++ cx :: y :: rest2) ++ [cnew] =
      (pre ++ [cx]) ++ ((y :: rest2) ++ [cnew]) ++ [] := by simp
  have hnod3 : (ids ((pre ++ [cx]) ++ ((y :: rest2) ++ [cnew]) ++ [])).Nodup := by
    rwa [hassoc] at hn
  have hinert2 : ∀ c ∈ (y :: rest2) ++ [cnew], env c.cb = Action.inert := by
    intro c hc
    rcases List.mem_append.mp hc with hc1 | hc2
    · exact hrest c hc1
    · simp at hc2
      rw [hc2]
      exact hnew
  have hfuel2 : (y :: rest2).length + 1 + k = ((y :: rest2) ++ [cnew]).length + k := by
    simp
  have hseg2 := emitLoop_inert_seg env args ((y :: rest2) ++ [cnew]) (pre ++ [cx]) [] k
    hnod3 hinert2
  simp only [List.append_nil] at hseg2
  have hposy2 : headPos ((y :: rest2) ++ [cnew]) = some y.cid := by simp [headPos]
  rw [hposy2] at hseg2
  have hposy : headPos (y :: rest2) = some y.cid := by simp [headPos]
  have hassoc2 : (pre ++ [cx]) ++ ((y :: rest2) ++ [cnew]) =
      (pre ++ cx :: y :: rest2) ++ [cnew] := by simp
  rw [hassoc2] at hseg2
  rw [hposy, hfuel2, hseg2]
  have hnone : headPos ([] : List Conn) = none := rfl
  rw [hnone, emitLoop_sentinel]
  simp

/-! ## Lemmas about the registry state machine -/

theorem lookupA_updateA {α : Type} (m : List (Nat × α)) (k : Nat) (v : α) (k2 : Nat) :
    lookupA (updateA m k v) k2 =
      if k2 = k then (lookupA m k).map (fun _ => v) else lookupA m k2 := by
  induction m with
  | nil => by_cases h : k2 = k <;> simp [updateA, lookupA, h]
  | cons p rest ih =>
    obtain ⟨ka, va⟩ := p
    by_cases h1 : ka = k
    · subst h1
      by_cases h2 : k2 = ka
      · subst h2
        simp [updateA, lookupA]
      · have h2b : ¬ ka = k2 := fun he => h2 he.symm
        simp [updateA, lookupA, h2, h2b]
    · by_cases h3 : ka = k2
      · subst h3
        have h2 : ¬ ka = k := h1
        have h2b : ¬ k = ka := fun he => h1 he.symm
        simp [updateA, lookupA, h1, h2b]
      · have h3b : ¬ k = k2 → True := fun _ => trivial
        simp [updateA, lookupA, h1, h3, ih]

/-- With `destroy = false` (the `disconnect` entry point), the
`signal_destroy` loop performs no receiver notification at all: the state is
returned untouched, and the surviving list is the erase walk. -/
theorem signal_destroy_loop_false (sid : Nat) (pslot : Option Nat) :
    ∀ (l : List Conn) (st : SigState),
      signal_destroy_loop sid false pslot l st = (st, signal_destroy_walk pslot l) := by
  intro l
  induction l with
  | nil => intro st; cases pslot <;> rfl
  | cons c rest ih =>
    intro st
    cases pslot with
    | none => simp [signal_destroy_loop, signal_destroy_walk, ih]
    | some r =>
      by_cases h : c.dest = r
      · simp [signal_destroy_loop, signal_destroy_walk, h, ih]
      · simp [signal_destroy_loop, signal_destroy_walk, h, ih]

/-- `signal0::disconnect` only rewrites the target signal's own connection
list: the erase walk survivors replace it, every other signal's list and the
whole receiver side are untouched. -/
theorem disconnect_state (st : SigState) (sid : Nat) (pslot : Option Nat) :
    disconnect st sid pslot =
      { st with signals :=
          updateA st.signals sid (signal_destroy_walk pslot (connsOf st sid)) } := by
  rw [disconnect, signal_destroy, signal_destroy_loop_false]
  rfl

theorem connsOf_disconnect (st : SigState) (sid : Nat) (pslot : Option Nat) (s2 : Nat) :
    connsOf (disconnect st sid pslot) s2 =
      if s2 = sid then signal_destroy_walk pslot (connsOf st sid)
      else connsOf st s2 := by
  rw [disconnect_state]
  show (lookupA (updateA st.signals sid
      (signal_destroy_walk pslot (connsOf st sid))) s2).getD [] = _
  rw [lookupA_updateA]
  by_cases h : s2 = sid
  · rw [if_pos h, if_pos h]
    cases hl : lookupA st.signals sid with
    | none =>
      simp only [connsOf, hl, Option.map_none', Option.getD_none]
      cases pslot <;> rfl
    | some l =>
      simp [connsOf, hl]
  · rw [if_neg h, if_neg h]
    rfl

theorem receivers_disconnect (st : SigState) (sid : Nat) (pslot : Option Nat) :
    (disconnect st sid pslot).receivers = st.receivers := by
  rw [disconnect_state]

/-- The teardown loop of `~has_slots` over the sender set: every signal in
the set gets its connections to the dying receiver erased, every signal
outside the set keeps its list, and no receiver state is touched by the
loop. -/
theorem foldl_disconnect_connsOf (rid : Nat) :
    ∀ (sids : List Nat) (st : SigState) (s : Nat),
      connsOf (sids.foldl (fun acc sid => disconnect acc sid (some rid)) st) s =
        if s ∈ sids then (connsOf st s).filter (fun c => c.dest != rid)
        else connsOf st s := by
  intro sids
  induction sids with
  | nil => intro st s; simp
  | cons s0 rest ih =>
    intro st s
    simp only [List.foldl_cons]
    rw [ih, connsOf_disconnect]
    by_cases h2 : s = s0
    · subst h2
      by_cases h1 : s ∈ rest
      · rw [if_pos h1, if_pos rfl, if_pos (by simp)]
        rw [signal_destroy_walk_eq_filter, List.filter_filter]
        congr 1
        funext c
        cases hb : (c.dest != rid) <;> simp [hb]
      · rw [if_neg h1, if_pos rfl, if_pos (by simp)]
        rw [signal_destroy_walk_eq_filter]
    · rw [if_neg h2]
      by_cases h1 : s ∈ rest
      · rw [if_pos h1, if_pos (by simp [h1])]
      · rw [if_neg h1, if_neg (by simp [h1, h2])]

theorem foldl_disconnect_receivers (rid : Nat) :
    ∀ (sids : List Nat) (st : SigState),
      (sids.foldl (fun acc sid => disconnect acc sid (some rid)) st).receivers =
        st.receivers := by
  intro sids
  induction sids with
  | nil => intro st; rfl
  | cons s0 rest ih =>
    intro st
    simp only [List.foldl_cons]
    rw [ih, receivers_disconnect]

/-! ## Lemmas about the sender set (`std::set`) -/

theorem mem_setInsert_self (x : Nat) (l : List Nat) : x ∈ setInsert x l := by
  induction l with
  | nil => simp [setInsert]
  | cons y ys ih =>
    by_cases h1 : x < y
    · simp [setInsert, h1]
    · by_cases h2 : x = y
      · simp [setInsert, h1, h2]
      · simp [setInsert, h1, h2, ih]

theorem mem_setInsert (z x : Nat) (l : List Nat) :
    z ∈ setInsert x l ↔ z = x ∨ z ∈ l := by
  induction l with
  | nil => simp [setInsert]
  | cons y ys ih =>
    by_cases h1 : x < y
    · rw [setInsert, if_pos h1]
      simp only [List.mem_cons]
    · by_cases h2 : x = y
      · rw [setInsert, if_neg h1, if_pos h2]
        subst h2
        simp only [List.mem_cons]
        tauto
      · rw [setInsert, if_neg h1, if_neg h2]
        simp only [List.mem_cons, ih]
        tauto

theorem setInsert_sorted (x : Nat) (l : List Nat)
    (h : l.Pairwise (· < ·)) : (setInsert x l).Pairwise (· < ·) := by
  induction l with
  | nil => simp [setInsert]
  | cons y ys ih =>
    rcases List.pairwise_cons.mp h with ⟨hy, hys⟩
    by_cases h1 : x < y
    · rw [setInsert, if_pos h1]
      refine List.pairwise_cons.mpr ⟨?_, h⟩
      intro z hz
      rcases List.mem_cons.mp hz with hz1 | hz2
      · omega
      · have := hy z hz2
        omega
    · by_cases h2 : x = y
      · rw [setInsert, if_neg h1, if_pos h2]
        exact h
      · rw [setInsert, if_neg h1, if_neg h2]
        refine List.pairwise_cons.mpr ⟨?_, ih hys⟩
        intro z hz
        rcases (mem_setInsert z x ys).mp hz with hz1 | hz2
        · omega
        · exact hy z hz2

theorem sorted_count_le_one (a : Nat) :
    ∀ (l : List Nat), l.Pairwise (· < ·) → l.count a ≤ 1 := by
  intro l
  induction l with
  | nil => intro h; simp
  | cons y ys ih =>
    intro h
    rcases List.pairwise_cons.mp h with ⟨hy, hys⟩
    by_cases hz : y = a
    · have : ys.count a = 0 := by
        rw [List.count_eq_zero]
        intro hmem
        have := hy a hmem
        omega
      simp [List.count_cons, hz, this]
    · have : (y :: ys).count a = ys.count a := by simp [List.count_cons, hz]
      rw [this]
      exact ih hys

theorem count_setInsert_self (x : Nat) (l : List Nat) (h : l.Pairwise (· < ·)) :
    (setInsert x l).count x = 1 := by
  have h1 : (setInsert x l).count x ≤ 1 :=
    sorted_count_le_one x (setInsert x l) (setInsert_sorted x l h)
  have h2 : 0 < (setInsert x l).count x :=
    List.count_pos_iff.mpr (mem_setInsert_self x l)
  omega

theorem lookupA_removeA_self {α : Type} (m : List (Nat × α)) (k : Nat) :
    lookupA (removeA m k) k = none := by
  induction m with
  | nil => rfl
  | cons p rest ih =>
    obtain ⟨ka, va⟩ := p
    by_cases h : ka = k
    · simp [removeA, h, ih]
    · simp [removeA, lookupA, h, ih]

/-! ## Lemmas about `connect` -/

theorem signals_signal_connect (st : SigState) (rid sid : Nat) :
    (signal_connect st rid sid).signals = st.signals := by
  cases h : lookupA st.receivers rid <;> simp [signal_connect, h]

theorem nextCid_signal_connect (st : SigState) (rid sid : Nat) :
    (signal_connect st rid sid).nextCid = st.nextCid := by
  cases h : lookupA st.receivers rid <;> simp [signal_connect, h]

theorem connect_connsOf (st : SigState) (sid rid cb : Nat)
    (h : signalLive st sid = true) :
    connsOf (connect st sid rid cb) sid =
      connsOf st sid ++ [⟨st.nextCid, rid, cb⟩] := by
  rw [signalLive, Option.isSome_iff_exists] at h
  obtain ⟨conns, hl⟩ := h
  simp only [connect, hl]
  rw [connsOf, signals_signal_connect]
  simp only [lookupA_updateA, if_pos rfl, hl]
  simp [connsOf, hl]

theorem connect_nextCid (st : SigState) (sid rid cb : Nat)
    (h : signalLive st sid = true) :
    (connect st sid rid cb).nextCid = st.nextCid + 1 := by
  rw [signalLive, Option.isSome_iff_exists] at h
  obtain ⟨conns, hl⟩ := h
  simp only [connect, hl]
  rw [nextCid_signal_connect]

theorem connect_signalLive (st : SigState) (sid rid cb : Nat) (s2 : Nat) :
    signalLive (connect st sid rid cb) s2 = signalLive st s2 := by
  cases hl : lookupA st.signals sid with
  | none => simp [connect, hl]
  | some conns =>
    simp only [connect, hl]
    rw [signalLive, signals_signal_connect]
    simp only [lookupA_updateA]
    by_cases h : s2 = sid
    · subst h
      simp [signalLive, hl]
    · simp [signalLive, h]

theorem connect_receiverLive (st : SigState) (sid rid cb : Nat) (r2 : Nat) :
    receiverLive (connect st sid rid cb) r2 = receiverLive st r2 := by
  cases hl : lookupA st.signals sid with
  | none => simp [connect, hl]
  | some conns =>
    simp only [connect, hl]
    cases hr : lookupA st.receivers rid with
    | none => simp [signal_connect, hr, receiverLive]
    | some sd =>
      simp only [signal_connect, hr]
      rw [receiverLive]
      simp only [lookupA_updateA]
      by_cases h : r2 = rid
      · subst h
        simp [receiverLive, hr]
      · simp [receiverLive, h]

theorem connect_sendersOf (st : SigState) (sid rid cb : Nat)
    (hs : signalLive st sid = true) (hr : receiverLive st rid = true) :
    sendersOf (connect st sid rid cb) rid = setInsert sid (sendersOf st rid) := by
  rw [signalLive, Option.isSome_iff_exists] at hs
  obtain ⟨conns, hl⟩ := hs
  rw [receiverLive, Option.isSome_iff_exists] at hr
  obtain ⟨sd, hrl⟩ := hr
  simp only [connect, hl, signal_connect, hrl]
  rw [sendersOf]
  simp only [lookupA_updateA, if_pos rfl, hrl]
  simp [sendersOf, hrl]

theorem connect_sendersOf_sorted (st : SigState) (sid rid cb : Nat)
    (hs : signalLive st sid = true) (hr : receiverLive st rid = true)
    (h : (sendersOf st rid).Pairwise (· < ·)) :
    (sendersOf (connect st sid rid cb) rid).Pairwise (· < ·) := by
  rw [connect_sendersOf st sid rid cb hs hr]
  exact setInsert_sorted sid (sendersOf st rid) h

/-! ## The claims -/

/-- C1: the spec claims that for every reachable state produced by any
finite sequence of connect, disconnect, emit, signal-destruction and
receiver-destruction operations, no signal's connection list contains a
connection whose target receiver has been destroyed, and no receiver's
back-reference set contains a signal that has been destroyed.  The code
violates the second half: `disconnect` reaches `signal_destroy` with
`destroy = false`, so `signal_disconnect` is never sent and the receiver's
`m_senders` keeps the signal; after the signal is then destroyed (its list
now empty, so its destructor notifies nobody) the receiver's back-reference
set still contains the destroyed signal.  The sequence connect, disconnect,
destroy-signal exhibits it. -/
theorem C1_invariant_broken_by_disconnect :
    invariantOk (run st0 [.opConnect 0 0 0, .opDisconnect 0 none]) = true ∧
    invariantOk (run st0 [.opConnect 0 0 0, .opDisconnect 0 none,
      .opDestroySignal 0]) = false ∧
    sendersOf (run st0 [.opConnect 0 0 0, .opDisconnect 0 none,
      .opDestroySignal 0]) 0 = [0] ∧
    signalLive (run st0 [.opConnect 0 0 0, .opDisconnect 0 none,
      .opDestroySignal 0]) 0 = false ∧
    receiverLive (run st0 [.opConnect 0 0 0, .opDisconnect 0 none,
      .opDestroySignal 0]) 0 = true := by
  decide

/-- C2: the spec claims that every `disconnect` call — with or without a
specific receiver — tells each removed connection's target receiver to drop
the back-reference to this signal, so that afterwards the receiver's
back-reference set no longer contains the signal.  The code does not:
`disconnect` calls `signal_destroy(false, pslot)` and the `destroy = false`
flag skips the `signal_disconnect` notification entirely.  Evaluated on one
signal connected to one receiver, both `disconnect()` and
`disconnect(&receiver)` empty the connection list yet leave the signal in
the receiver's `m_senders`. -/
theorem C2_disconnect_leaves_backref :
    connsOf (disconnect (run st0 [.opConnect 0 0 0]) 0 none) 0 = [] ∧
    sendersOf (disconnect (run st0 [.opConnect 0 0 0]) 0 none) 0 = [0] ∧
    connsOf (disconnect (run st0 [.opConnect 0 0 0]) 0 (some 0)) 0 = [] ∧
    sendersOf (disconnect (run st0 [.opConnect 0 0 0]) 0 (some 0)) 0 = [0] := by
  decide

/-- C3: for every signal with any number of connections and no mutation
during the dispatch (every connected slot body side-effect free), `emit`
invokes each connected callback exactly once, in connection-list (insertion)
order, passing exactly the emitted argument tuple unmodified to every
callback, and the run ends normally with the list unchanged. -/
theorem C3_emit_in_order (env : Nat → Action) (args : List Int) (l : List Conn)
    (k : Nat) (hn : (ids l).Nodup) (hi : ∀ c ∈ l, env c.cb = Action.inert) :
    emit env args (l.length + k) l = ⟨l, l.map (inv args), Outcome.ok⟩ :=
  emit_inert_run env args l k hn hi

theorem C3_emit_in_order_witness :
    ((ids [(⟨0, 1, 4⟩ : Conn), ⟨1, 2, 4⟩, ⟨2, 1, 6⟩]).Nodup ∧
      (∀ c ∈ [(⟨0, 1, 4⟩ : Conn), ⟨1, 2, 4⟩, ⟨2, 1, 6⟩],
        envInert c.cb = Action.inert)) ∧
    emit envInert [3, 4] ([(⟨0, 1, 4⟩ : Conn), ⟨1, 2, 4⟩, ⟨2, 1, 6⟩].length + 0)
        [⟨0, 1, 4⟩, ⟨1, 2, 4⟩, ⟨2, 1, 6⟩] =
      ⟨[⟨0, 1, 4⟩, ⟨1, 2, 4⟩, ⟨2, 1, 6⟩],
       [(⟨0, 1, 4⟩ : Conn), ⟨1, 2, 4⟩, ⟨2, 1, 6⟩].map (inv [3, 4]), Outcome.ok⟩ :=
  ⟨⟨by decide, by decide⟩,
    C3_emit_in_order envInert [3, 4] [⟨0, 1, 4⟩, ⟨1, 2, 4⟩, ⟨2, 1, 6⟩] 0
      (by decide) (by decide)⟩

/-- C4: for every signal state and every receiver `r`, `disconnect(r)`
removes exactly the connections whose target is `r` (possibly several,
possibly none) and leaves every connection targeting a different receiver
present, in its original relative order — the surviving list is precisely
the original filtered to the other targets — while every other signal's list
and the whole receiver side of the state are untouched. -/
theorem C4_disconnect_exact_frame (st : SigState) (sid r : Nat) :
    connsOf (disconnect st sid (some r)) sid =
        (connsOf st sid).filter (fun c => c.dest != r) ∧
    (∀ c ∈ connsOf st sid, c.dest ≠ r →
      c ∈ connsOf (disconnect st sid (some r)) sid) ∧
    (∀ c ∈ connsOf (disconnect st sid (some r)) sid, c.dest ≠ r) ∧
    (∀ s2, s2 ≠ sid → connsOf (disconnect st sid (some r)) s2 = connsOf st s2) ∧
    (disconnect st sid (some r)).receivers = st.receivers := by
  have h0 : connsOf (disconnect st sid (some r)) sid =
      (connsOf st sid).filter (fun c => c.dest != r) := by
    rw [connsOf_disconnect, if_pos rfl, signal_destroy_walk_eq_filter]
  refine ⟨h0, ?_, ?_, ?_, receivers_disconnect st sid (some r)⟩
  · intro c hc hne
    rw [h0]
    rw [List.mem_filter]
    exact ⟨hc, by simpa using hne⟩
  · intro c hc
    rw [h0] at hc
    have := (List.mem_filter.mp hc).2
    simpa using this
  · intro s2 h2
    rw [connsOf_disconnect, if_neg h2]

theorem C4_disconnect_exact_frame_witness :
    connsOf (disconnect ⟨3, [(0, [⟨0, 1, 4⟩, ⟨1, 2, 4⟩, ⟨2, 1, 6⟩])],
        [(1, [0]), (2, [0])]⟩ 0 (some 1)) 0 = [⟨1, 2, 4⟩] ∧
    (disconnect ⟨3, [(0, [⟨0, 1, 4⟩, ⟨1, 2, 4⟩, ⟨2, 1, 6⟩])],
        [(1, [0]), (2, [0])]⟩ 0 (some 1)).receivers = [(1, [0]), (2, [0])] :=
  ⟨by
    have h := (C4_disconnect_exact_frame
      ⟨3, [(0, [⟨0, 1, 4⟩, ⟨1, 2, 4⟩, ⟨2, 1, 6⟩])], [(1, [0]), (2, [0])]⟩ 0 1).1
    rw [h]
    decide,
   (C4_disconnect_exact_frame
      ⟨3, [(0, [⟨0, 1, 4⟩, ⟨1, 2, 4⟩, ⟨2, 1, 6⟩])], [(1, [0]), (2, [0])]⟩ 0 1).2.2.2.2⟩

/-- C5: the spec claims the next-pointer lookahead makes the traversal
immune to a side effect that disconnects ANY later entry, including the
entry immediately following the one being invoked.  It is not: the lookahead
is captured before the invocation, so when the invoked slot erases exactly
the immediately-following node, the captured iterator dangles and the loop
resumes at a freed node.  Concretely: two connections, node 0 to receiver 0
and node 1 to receiver 1; node 0's body calls `disconnect(receiver 1)`; the
walk then resumes at erased node 1 — a freed-node dereference (undefined
behaviour in the source), not a completed traversal. -/
theorem C5_lookahead_counterexample :
    (emit envDisc1 [] 5 [⟨0, 0, 0⟩, ⟨1, 1, 1⟩]).outcome = Outcome.invalidIter ∧
    (emit envDisc1 [] 5 [⟨0, 0, 0⟩, ⟨1, 1, 1⟩]).trace = [inv [] ⟨0, 0, 0⟩] ∧
    (emit envDisc1 [] 5 [⟨0, 0, 0⟩, ⟨1, 1, 1⟩]).conns = [⟨0, 0, 0⟩] :=
  ⟨rfl, rfl, rfl⟩

/-- C5 (amended): during an emit traversal using lookahead captured before
invoking the current entry, a side effect of one invocation that
re-entrantly calls `disconnect(r)` on the emitting signal cannot invalidate
the traversal PROVIDED the entry the captured lookahead points at — the one
immediately following the invoking entry — does not target `r` (removing
the current entry itself, or entries further ahead, is safe).  Under that
proviso the walk continues over a stable order and never dereferences a
removed entry: it completes normally, invoking the earlier entries, the
mutator, and exactly the surviving later entries in order. -/
theorem C5_lookahead_safe_amended (env : Nat → Action) (args : List Int)
    (pre : List Conn) (cx : Conn) (rest : List Conn) (r : Nat) (k : Nat)
    (hn : (ids (pre ++ cx :: rest)).Nodup)
    (hpre : ∀ c ∈ pre, env c.cb = Action.inert)
    (hrest : ∀ c ∈ rest, env c.cb = Action.inert)
    (hcx : env cx.cb = Action.disconnectR r)
    (hsurv : ∀ y ∈ rest.head?, y.dest ≠ r) :
    emit env args ((pre ++ cx :: rest).length + k) (pre ++ cx :: rest) =
      ⟨signal_destroy_walk (some r) (pre ++ cx :: rest),
       pre.map (inv args) ++
         inv args cx :: (signal_destroy_walk (some r) rest).map (inv args),
       Outcome.ok⟩ ∧
    (emit env args ((pre ++ cx :: rest).length + k) (pre ++ cx :: rest)).outcome ≠
      Outcome.invalidIter := by
  have h := emit_disconnect_mid env args pre cx rest r k hn hpre hrest hcx hsurv
  refine ⟨h, ?_⟩
  rw [h]
  simp

theorem C5_lookahead_safe_amended_witness :
    ((ids [(⟨0, 0, 0⟩ : Conn), ⟨1, 2, 1⟩, ⟨2, 1, 1⟩]).Nodup ∧
      (∀ c ∈ ([] : List Conn), envDisc1 c.cb = Action.inert) ∧
      (∀ c ∈ [(⟨1, 2, 1⟩ : Conn), ⟨2, 1, 1⟩], envDisc1 c.cb = Action.inert) ∧
      envDisc1 (0 : Nat) = Action.disconnectR 1 ∧
      (∀ y ∈ ([(⟨1, 2, 1⟩ : Conn), ⟨2, 1, 1⟩].head?), y.dest ≠ 1)) ∧
    emit envDisc1 [] (([] ++ (⟨0, 0, 0⟩ : Conn) :: [⟨1, 2, 1⟩, ⟨2, 1, 1⟩]).length + 0)
        ([] ++ (⟨0, 0, 0⟩ : Conn) :: [⟨1, 2, 1⟩, ⟨2, 1, 1⟩]) =
      ⟨signal_destroy_walk (some 1) ([] ++ (⟨0, 0, 0⟩ : Conn) :: [⟨1, 2, 1⟩, ⟨2, 1, 1⟩]),
       ([] : List Conn).map (inv []) ++
         inv [] ⟨0, 0, 0⟩ ::
           (signal_destroy_walk (some 1) [⟨1, 2, 1⟩, ⟨2, 1, 1⟩]).map (inv []),
       Outcome.ok⟩ :=
  ⟨⟨by decide, by decide, by decide, by decide, by decide⟩,
    (C5_lookahead_safe_amended envDisc1 [] [] ⟨0, 0, 0⟩ [⟨1, 2, 1⟩, ⟨2, 1, 1⟩] 1 0
      (by decide) (by decide) (by decide) (by decide) (by decide)).1⟩

/-- C6: the claim states that a slot calling `disconnect(self)` on its own
signal during its own invocation never corrupts the in-progress emit
traversal.  It does when the connection immediately following the invoking
one ALSO targets the same receiver: `disconnect(self)` erases every
connection to that receiver, including the node the lookahead was captured
on, and the walk resumes at a freed node.  Concretely: nodes 0 and 1 both
target receiver 4; node 0's body calls `disconnect(receiver 4)`; the
traversal resumes at erased node 1 instead of finishing. -/
theorem C6_adjacent_duplicate_counterexample :
    (emit envSelf4 [] 5 [⟨0, 4, 0⟩, ⟨1, 4, 1⟩]).outcome = Outcome.invalidIter ∧
    (emit envSelf4 [] 5 [⟨0, 4, 0⟩, ⟨1, 4, 1⟩]).trace = [inv [] ⟨0, 4, 0⟩] ∧
    (emit envSelf4 [] 5 [⟨0, 4, 0⟩, ⟨1, 4, 1⟩]).conns = [] :=
  ⟨rfl, rfl, rfl⟩

/-- C6 (amended): if during emit the slot body of connection `ri`
re-entrantly calls `disconnect(ri)` on the emitting signal and the
connection immediately following `ri` does not also target `ri`'s receiver
(automatic when the receivers are pairwise distinct), the in-progress
traversal is not corrupted: the run ends normally and every connection after
`ri` that is still present — i.e. every later connection not targeting
`ri`'s receiver — is still invoked, in order, in that same emit call. -/
theorem C6_self_disconnect_traversal (env : Nat → Action) (args : List Int)
    (pre : List Conn) (cx : Conn) (rest : List Conn) (k : Nat)
    (hn : (ids (pre ++ cx :: rest)).Nodup)
    (hpre : ∀ c ∈ pre, env c.cb = Action.inert)
    (hrest : ∀ c ∈ rest, env c.cb = Action.inert)
    (hcx : env cx.cb = Action.disconnectR cx.dest)
    (hsurv : ∀ y ∈ rest.head?, y.dest ≠ cx.dest) :
    emit env args ((pre ++ cx :: rest).length + k) (pre ++ cx :: rest) =
      ⟨signal_destroy_walk (some cx.dest) (pre ++ cx :: rest),
       pre.map (inv args) ++
         inv args cx ::
           (signal_destroy_walk (some cx.dest) rest).map (inv args),
       Outcome.ok⟩ ∧
    (∀ c ∈ rest, c.dest ≠ cx.dest →
      inv args c ∈
        (emit env args ((pre ++ cx :: rest).length + k) (pre ++ cx :: rest)).trace) := by
  have h := emit_disconnect_mid env args pre cx rest cx.dest k hn hpre hrest hcx hsurv
  refine ⟨h, ?_⟩
  intro c hc hne
  rw [h]
  have hcw : c ∈ signal_destroy_walk (some cx.dest) rest := by
    rw [signal_destroy_walk_eq_filter, List.mem_filter]
    exact ⟨hc, by simpa using hne⟩
  simp only [LoopRes.trace, List.mem_append, List.mem_cons]
  exact Or.inr (Or.inr (List.mem_map_of_mem (inv args) hcw))

theorem C6_self_disconnect_traversal_witness :
    ((ids [(⟨0, 0, 0⟩ : Conn), ⟨1, 1, 5⟩, ⟨2, 2, 0⟩]).Nodup ∧
      (∀ c ∈ [(⟨0, 0, 0⟩ : Conn)], envSelf1 c.cb = Action.inert) ∧
      (∀ c ∈ [(⟨2, 2, 0⟩ : Conn)], envSelf1 c.cb = Action.inert) ∧
      envSelf1 (5 : Nat) = Action.disconnectR 1 ∧
      (∀ y ∈ [(⟨2, 2, 0⟩ : Conn)].head?, y.dest ≠ 1)) ∧
    emit envSelf1 [] (([(⟨0, 0, 0⟩ : Conn)] ++ (⟨1, 1, 5⟩ : Conn) :: [⟨2, 2, 0⟩]).length + 0)
        ([(⟨0, 0, 0⟩ : Conn)] ++ (⟨1, 1, 5⟩ : Conn) :: [⟨2, 2, 0⟩]) =
      ⟨signal_destroy_walk (some 1)
         ([(⟨0, 0, 0⟩ : Conn)] ++ (⟨1, 1, 5⟩ : Conn) :: [⟨2, 2, 0⟩]),
       [(⟨0, 0, 0⟩ : Conn)].map (inv []) ++
         inv [] ⟨1, 1, 5⟩ ::
           (signal_destroy_walk (some 1) [(⟨2, 2, 0⟩ : Conn)]).map (inv []),
       Outcome.ok⟩ :=
  ⟨⟨by decide, by decide, by decide, by decide, by decide⟩,
    (C6_self_disconnect_traversal envSelf1 [] [⟨0, 0, 0⟩] ⟨1, 1, 5⟩ [⟨2, 2, 0⟩] 0
      (by decide) (by decide) (by decide) (by decide) (by decide)).1⟩

/-- C7: for every emit in which some invoked callback throws (every earlier
body side-effect free), the failure propagates synchronously out of `emit`
uncaught and untranslated: the run ends with the failure outcome, the trace
holds exactly the invocations up to and including the failing one — the
remaining connections are not invoked — and the `lock_block` guard still
releases the signal's lock on this unwinding exit path, so the lock event
list is acquire, the performed calls, release. -/
theorem C7_failure_propagation (env : Nat → Action) (args : List Int)
    (pre : List Conn) (cf : Conn) (rest : List Conn) (k : Nat)
    (hn : (ids (pre ++ cf :: rest)).Nodup)
    (hpre : ∀ c ∈ pre, env c.cb = Action.inert)
    (hcf : env cf.cb = Action.fail) :
    emit env args ((pre ++ cf :: rest).length + k) (pre ++ cf :: rest) =
      ⟨pre ++ cf :: rest, pre.map (inv args) ++ [inv args cf], Outcome.failed⟩ ∧
    emitEvents env args ((pre ++ cf :: rest).length + k) (pre ++ cf :: rest) =
      LockEv.acquire ::
        ((pre.map (inv args) ++ [inv args cf]).map LockEv.call ++ [LockEv.release]) := by
  have hfuel : (pre ++ cf :: rest).length + k = pre.length + (1 + rest.length + k) := by
    simp [List.length_append]
    omega
  have h1 : (ids (([] : List Conn) ++ pre ++ (cf :: rest))).Nodup := by simpa using hn
  have hseg := emitLoop_inert_seg env args pre [] (cf :: rest) (1 + rest.length + k) h1 hpre
  simp only [List.nil_append] at hseg
  have hposcf : headPos (cf :: rest) = some cf.cid := by simp [headPos]
  have hcfnm : cf.cid ∉ ids pre := nodup_split_not_mem pre cf rest hn
  have hstep1 : (1 : Nat) + rest.length + k = (rest.length + k) + 1 := by omega
  have hmain : emit env args ((pre ++ cf :: rest).length + k) (pre ++ cf :: rest) =
      ⟨pre ++ cf :: rest, pre.map (inv args) ++ [inv args cf], Outcome.failed⟩ := by
    rw [emit, hfuel, hseg, hposcf, hstep1,
      emitLoop_step_fail env args (rest.length + k) pre cf rest hcfnm hcf]
  refine ⟨hmain, ?_⟩
  rw [emitEvents, hmain]
  simp

theorem C7_failure_propagation_witness :
    ((ids [(⟨0, 0, 0⟩ : Conn), ⟨1, 1, 5⟩, ⟨2, 2, 0⟩]).Nodup ∧
      (∀ c ∈ [(⟨0, 0, 0⟩ : Conn)], envThrow5 c.cb = Action.inert) ∧
      envThrow5 (5 : Nat) = Action.fail) ∧
    emit envThrow5 [7] (([(⟨0, 0, 0⟩ : Conn)] ++ (⟨1, 1, 5⟩ : Conn) :: [⟨2, 2, 0⟩]).length + 0)
        ([(⟨0, 0, 0⟩ : Conn)] ++ (⟨1, 1, 5⟩ : Conn) :: [⟨2, 2, 0⟩]) =
      ⟨[(⟨0, 0, 0⟩ : Conn)] ++ (⟨1, 1, 5⟩ : Conn) :: [⟨2, 2, 0⟩],
       [(⟨0, 0, 0⟩ : Conn)].map (inv [7]) ++ [inv [7] ⟨1, 1, 5⟩],
       Outcome.failed⟩ :=
  ⟨⟨by decide, by decide, by decide⟩,
    (C7_failure_propagation envThrow5 [7] [⟨0, 0, 0⟩] ⟨1, 1, 5⟩ [⟨2, 2, 0⟩] 0
      (by decide) (by decide) (by decide)).1⟩

/-- C10: the claim states that a connection appended by a re-entrant
`connect` from inside an invoked slot is itself invoked later within the
same emit call, for EVERY position at which the re-entrant connect occurs.
That fails when the connect happens during the invocation of the FINAL
entry: the lookahead captured before that invocation is already the end
sentinel, so the walk stops without visiting the freshly appended node.
Concretely: one connection whose body connects a new node; emit completes
normally with the node appended to the list but absent from the trace. -/
theorem C10_tail_connect_counterexample :
    (emit envConn5 [] 5 [⟨0, 1, 5⟩]).conns = [⟨0, 1, 5⟩, ⟨7, 7, 9⟩] ∧
    (emit envConn5 [] 5 [⟨0, 1, 5⟩]).trace = [inv [] ⟨0, 1, 5⟩] ∧
    (emit envConn5 [] 5 [⟨0, 1, 5⟩]).outcome = Outcome.ok :=
  ⟨rfl, rfl, rfl⟩

/-- C10 (amended): if an invoked slot body re-entrantly calls `connect` on
the emitting signal, the new connection is appended at the tail of the list,
and PROVIDED the connect occurs during the invocation of a non-final entry,
the appended connection is itself invoked, last, in that same emit call (the
end sentinel of a `std::list` is stable, so the walk reaches nodes appended
in front of it); when the connect occurs during the final entry's
invocation, the lookahead has already captured the sentinel and the new
connection is not visited in that emit. -/
theorem C10_connect_during_emit_amended (env : Nat → Action) (args : List Int)
    (pre : List Conn) (cx y : Conn) (rest2 : List Conn) (cnew : Conn) (k : Nat)
    (hn : (ids ((pre ++ cx :: y :: rest2) ++ [cnew])).Nodup)
    (hpre : ∀ c ∈ pre, env c.cb = Action.inert)
    (hrest : ∀ c ∈ y :: rest2, env c.cb = Action.inert)
    (hnew : env cnew.cb = Action.inert)
    (hcx : env cx.cb = Action.connectNew cnew) :
    emit env args ((pre ++ cx :: y :: rest2).length + 1 + k) (pre ++ cx :: y :: rest2) =
      ⟨(pre ++ cx :: y :: rest2) ++ [cnew],
       pre.map (inv args) ++
         inv args cx :: ((y :: rest2).map (inv args) ++ [inv args cnew]),
       Outcome.ok⟩ :=
  emit_connect_mid env args pre cx y rest2 cnew k hn hpre hrest hnew hcx

theorem C10_connect_during_emit_amended_witness :
    ((ids (([] ++ (⟨0, 1, 5⟩ : Conn) :: (⟨1, 2, 0⟩ : Conn) :: []) ++ [⟨7, 7, 9⟩])).Nodup ∧
      (∀ c ∈ ([] : List Conn), envConn5 c.cb = Action.inert) ∧
      (∀ c ∈ ((⟨1, 2, 0⟩ : Conn) :: []), envConn5 c.cb = Action.inert) ∧
      envConn5 (9 : Nat) = Action.inert ∧
      envConn5 (5 : Nat) = Action.connectNew ⟨7, 7, 9⟩) ∧
    emit envConn5 [] (([] ++ (⟨0, 1, 5⟩ : Conn) :: (⟨1, 2, 0⟩ : Conn) :: []).length + 1 + 0)
        ([] ++ (⟨0, 1, 5⟩ : Conn) :: (⟨1, 2, 0⟩ : Conn) :: []) =
      ⟨([] ++ (⟨0, 1, 5⟩ : Conn) :: (⟨1, 2, 0⟩ : Conn) :: []) ++ [⟨7, 7, 9⟩],
       ([] : List Conn).map (inv []) ++
         inv [] ⟨0, 1, 5⟩ ::
           (((⟨1, 2, 0⟩ : Conn) :: []).map (inv []) ++ [inv [] ⟨7, 7, 9⟩]),
       Outcome.ok⟩ :=
  ⟨⟨by decide, by decide, by decide, by decide, by decide⟩,
    C10_connect_during_emit_amended envConn5 [] [] ⟨0, 1, 5⟩ ⟨1, 2, 0⟩ [] ⟨7, 7, 9⟩ 0
      (by decide) (by decide) (by decide) (by decide) (by decide)⟩

/-- C8: for every signal `sid` and live receiver `rid` with a
strictly-ordered sender set, connecting the same receiver-and-callback pair
twice appends two independent connection nodes (fresh distinct identities)
to the signal's list; a mutation-free emit then invokes each of the two
exactly once — the bound callback runs twice per emit — while the receiver's
back-reference set records the signal exactly once. -/
theorem C8_duplicate_connect (st : SigState) (sid rid cb : Nat)
    (hs : signalLive st sid = true) (hr : receiverLive st rid = true)
    (hsort : (sendersOf st rid).Pairwise (· < ·)) :
    connsOf (connect (connect st sid rid cb) sid rid cb) sid =
        connsOf st sid ++ [⟨st.nextCid, rid, cb⟩, ⟨st.nextCid + 1, rid, cb⟩] ∧
    (sendersOf (connect (connect st sid rid cb) sid rid cb) rid).count sid = 1 ∧
    (∀ (env : Nat → Action) (args : List Int) (k : Nat),
      (ids (connsOf (connect (connect st sid rid cb) sid rid cb) sid)).Nodup →
      (∀ c ∈ connsOf (connect (connect st sid rid cb) sid rid cb) sid,
        env c.cb = Action.inert) →
      (emit env args
          ((connsOf (connect (connect st sid rid cb) sid rid cb) sid).length + k)
          (connsOf (connect (connect st sid rid cb) sid rid cb) sid)).trace =
        (connsOf st sid).map (inv args) ++
          [inv args ⟨st.nextCid, rid, cb⟩, inv args ⟨st.nextCid + 1, rid, cb⟩]) := by
  have hs1 : signalLive (connect st sid rid cb) sid = true := by
    rw [connect_signalLive]
    exact hs
  have hr1 : receiverLive (connect st sid rid cb) rid = true := by
    rw [connect_receiverLive]
    exact hr
  have ha : connsOf (connect st sid rid cb) sid =
      connsOf st sid ++ [⟨st.nextCid, rid, cb⟩] := connect_connsOf st sid rid cb hs
  have hb := connect_connsOf (connect st sid rid cb) sid rid cb hs1
  rw [connect_nextCid st sid rid cb hs, ha] at hb
  have hlist : connsOf (connect (connect st sid rid cb) sid rid cb) sid =
      connsOf st sid ++ [⟨st.nextCid, rid, cb⟩, ⟨st.nextCid + 1, rid, cb⟩] := by
    rw [hb]
    simp
  have hsd : sendersOf (connect (connect st sid rid cb) sid rid cb) rid =
      setInsert sid (setInsert sid (sendersOf st rid)) := by
    rw [connect_sendersOf (connect st sid rid cb) sid rid cb hs1 hr1,
      connect_sendersOf st sid rid cb hs hr]
  refine ⟨hlist, ?_, ?_⟩
  · rw [hsd]
    exact count_setInsert_self sid (setInsert sid (sendersOf st rid))
      (setInsert_sorted sid (sendersOf st rid) hsort)
  · intro env args k hnod hinert
    rw [emit_inert_run env args _ k hnod hinert, hlist]
    simp

theorem C8_duplicate_connect_witness :
    (signalLive st0 0 = true ∧ receiverLive st0 0 = true ∧
      (sendersOf st0 0).Pairwise (· < ·)) ∧
    connsOf (connect (connect st0 0 0 5) 0 0 5) 0 = [⟨0, 0, 5⟩, ⟨1, 0, 5⟩] ∧
    (sendersOf (connect (connect st0 0 0 5) 0 0 5) 0).count 0 = 1 ∧
    (emit envInert [2] ((connsOf (connect (connect st0 0 0 5) 0 0 5) 0).length + 0)
        (connsOf (connect (connect st0 0 0 5) 0 0 5) 0)).trace =
      [inv [2] ⟨0, 0, 5⟩, inv [2] ⟨1, 0, 5⟩] := by
  have h := C8_duplicate_connect st0 0 0 5 (by decide) (by decide) (by decide)
  refine ⟨⟨by decide, by decide, by decide⟩, ?_, h.2.1, ?_⟩
  · rw [h.1]
    decide
  · rw [h.2.2 envInert [2] 0 (by decide) (by decide)]
    decide

/-- C9: for every receiver `rid` with live connections from one or more
live signals, destroying the receiver removes every connection targeting it
from every signal in its back-reference set (the other connections kept in
order), the receiver itself is gone, and a subsequent mutation-free emit on
each of those signals completes normally, invoking only the other
still-connected receivers and never `rid`. -/
theorem C9_receiver_destruction (st : SigState) (rid : Nat) (senders : List Nat)
    (hrec : lookupA st.receivers rid = some senders)
    (hlive : ∀ s ∈ senders, signalLive st s = true) :
    receiverLive (destroyReceiver st rid) rid = false ∧
    (∀ s ∈ senders, connsOf (destroyReceiver st rid) s =
      (connsOf st s).filter (fun c => c.dest != rid)) ∧
    (∀ s ∈ senders, ∀ c ∈ connsOf (destroyReceiver st rid) s, c.dest ≠ rid) ∧
    (∀ s ∈ senders, ∀ (env : Nat → Action) (args : List Int) (k : Nat),
      (ids (connsOf (destroyReceiver st rid) s)).Nodup →
      (∀ c ∈ connsOf (destroyReceiver st rid) s, env c.cb = Action.inert) →
      emit env args ((connsOf (destroyReceiver st rid) s).length + k)
          (connsOf (destroyReceiver st rid) s) =
        ⟨connsOf (destroyReceiver st rid) s,
         (connsOf (destroyReceiver st rid) s).map (inv args), Outcome.ok⟩ ∧
      ∀ e ∈ (connsOf (destroyReceiver st rid) s).map (inv args), e.dest ≠ rid) := by
  have hsig : (destroyReceiver st rid).signals =
      (senders.foldl (fun acc sid => disconnect acc sid (some rid)) st).signals := by
    simp [destroyReceiver, hrec]
  have hrecv : (destroyReceiver st rid).receivers =
      removeA st.receivers rid := by
    simp only [destroyReceiver, hrec]
    rw [foldl_disconnect_receivers]
  have hconns : ∀ s, connsOf (destroyReceiver st rid) s =
      if s ∈ senders then (connsOf st s).filter (fun c => c.dest != rid)
      else connsOf st s := by
    intro s
    have h1 := foldl_disconnect_connsOf rid senders st s
    rw [← h1]
    simp only [connsOf, hsig]
  have hmem : ∀ s ∈ senders, ∀ c ∈ connsOf (destroyReceiver st rid) s,
      c.dest ≠ rid := by
    intro s hsmem c hc
    rw [hconns s, if_pos hsmem] at hc
    have := (List.mem_filter.mp hc).2
    simpa using this
  refine ⟨?_, ?_, hmem, ?_⟩
  · rw [receiverLive, hrecv, lookupA_removeA_self]
    rfl
  · intro s hsmem
    rw [hconns s, if_pos hsmem]
  · intro s hsmem env args k hnod hinert
    refine ⟨emit_inert_run env args _ k hnod hinert, ?_⟩
    intro e he
    obtain ⟨c, hc, rfl⟩ := List.mem_map.mp he
    exact hmem s hsmem c hc

theorem C9_receiver_destruction_witness :
    (lookupA (⟨9, [(0, [⟨0, 0, 3⟩]), (1, [⟨1, 0, 4⟩, ⟨2, 2, 4⟩])],
        [(0, [0, 1]), (2, [1])]⟩ : SigState).receivers 0 = some [0, 1] ∧
      (∀ s ∈ [0, 1], signalLive
        (⟨9, [(0, [⟨0, 0, 3⟩]), (1, [⟨1, 0, 4⟩, ⟨2, 2, 4⟩])],
          [(0, [0, 1]), (2, [1])]⟩ : SigState) s = true)) ∧
    receiverLive (destroyReceiver
      ⟨9, [(0, [⟨0, 0, 3⟩]), (1, [⟨1, 0, 4⟩, ⟨2, 2, 4⟩])],
        [(0, [0, 1]), (2, [1])]⟩ 0) 0 = false ∧
    connsOf (destroyReceiver
      ⟨9, [(0, [⟨0, 0, 3⟩]), (1, [⟨1, 0, 4⟩, ⟨2, 2, 4⟩])],
        [(0, [0, 1]), (2, [1])]⟩ 0) 1 = [⟨2, 2, 4⟩] ∧
    emit envInert [] ((connsOf (destroyReceiver
        ⟨9, [(0, [⟨0, 0, 3⟩]), (1, [⟨1, 0, 4⟩, ⟨2, 2, 4⟩])],
          [(0, [0, 1]), (2, [1])]⟩ 0) 1).length + 0)
      (connsOf (destroyReceiver
        ⟨9, [(0, [⟨0, 0, 3⟩]), (1, [⟨1, 0, 4⟩, ⟨2, 2, 4⟩])],
          [(0, [0, 1]), (2, [1])]⟩ 0) 1) =
      ⟨connsOf (destroyReceiver
          ⟨9, [(0, [⟨0, 0, 3⟩]), (1, [⟨1, 0, 4⟩, ⟨2, 2, 4⟩])],
            [(0, [0, 1]), (2, [1])]⟩ 0) 1,
       (connsOf (destroyReceiver
          ⟨9, [(0, [⟨0, 0, 3⟩]), (1, [⟨1, 0, 4⟩, ⟨2, 2, 4⟩])],
            [(0, [0, 1]), (2, [1])]⟩ 0) 1).map (inv []), Outcome.ok⟩ := by
  have h := C9_receiver_destruction
    ⟨9, [(0, [⟨0, 0, 3⟩]), (1, [⟨1, 0, 4⟩, ⟨2, 2, 4⟩])], [(0, [0, 1]), (2, [1])]⟩
    0 [0, 1] (by decide) (by decide)
  refine ⟨⟨by decide, by decide⟩, h.1, ?_, ?_⟩
  · rw [h.2.1 1 (by decide)]
    decide
  · exact (h.2.2.2 1 (by decide) envInert [] 0 (by decide) (by decide)).1

end Sigslot
